import Mathlib

/-!
Shallow embedding of the gfaas procedural-macro logic
(src/crates/macro/src/logic.rs) and of the code it generates.

The macro transforms an annotated "remotable" function. We embed:

* `validate_arg_type` and `validate_extract_args` — the Argument Validator;
* the attribute-resolution loop of `remote_fn_impl` — the Attribute
  Resolver (`parseAttrStep` / `parseAttrs`, over `GwasmParams`);
* the marshaling performed by the two generated dispatcher bodies
  (`genInputData` / `localInputDir` for the local-sandbox strategy,
  `buildTask` / `collectOutput` and `netMatch` for the distributed one);
* the emitted kernel program entry point (`kernelMain`), which pops
  trailing command-line arguments and reconstructs the parameter buffers.

Rust panics and `unwrap` failures are modelled with `Except String` /
`Option`; byte buffers are `List Nat`.
-/

namespace Gfaas

/-- Raw byte buffers (the contents of a `Vec<u8>`). -/
abbrev Bytes := List Nat

/-! ## Argument Validator (`validate_arg_type`, `validate_extract_args`) -/

/-- The shapes of `syn::Type` that `validate_arg_type` inspects: arrays,
slices, references, paths (a path being a non-empty segment list, where
`Path::get_ident` yields an identifier only for a single-segment path),
and a catch-all for every other type variant (tuples, fn pointers, ...). -/
inductive RType where
  | array (elem : RType)
  | slice (elem : RType)
  | ref (elem : RType)
  | path (segments : List String)
  | other
deriving DecidableEq

/-- Embedding of `validate_arg_type` (logic.rs lines 40-55): recursively
unwrap array/slice/reference wrappers and require the innermost path to
be the single identifier `u8`. -/
def validate_arg_type : RType → Bool
  | RType.array arr => validate_arg_type arr
  | RType.slice sl => validate_arg_type sl
  | RType.ref rf => validate_arg_type rf
  | RType.path segs =>
    match segs with
    | [one] => one == "u8"
    | _ => false
  | RType.other => false

/-- Specification-side characterization used to settle claim C5: the
types built by wrapping the single-segment path `u8` in any finite
combination of array, slice and reference wrappers. -/
inductive ByteSeqShaped : RType → Prop
  | u8 : ByteSeqShaped (RType.path ["u8"])
  | array {t : RType} : ByteSeqShaped t → ByteSeqShaped (RType.array t)
  | slice {t : RType} : ByteSeqShaped t → ByteSeqShaped (RType.slice t)
  | ref {t : RType} : ByteSeqShaped t → ByteSeqShaped (RType.ref t)

/-- A binding pattern of a function parameter (opaque at this level). -/
abbrev Pat := String

/-- `syn::FnArg`: either a receiver (a `self`-like parameter) or a typed
parameter carrying a list of attributes, a pattern and a type. We keep
only the attribute count, which is all `validate_extract_args` reads. -/
inductive FnArg where
  | receiver
  | typed (attrsLen : Nat) (pat : Pat) (ty : RType)
deriving DecidableEq

/-- Embedding of `validate_extract_args` (logic.rs lines 57-77): walk the
parameters in order, panicking (here: `Except.error`) on a receiver, on
attribute-decorated parameters, and on a type rejected by
`validate_arg_type`; otherwise collect the `(pat, ty)` pairs in order. -/
def validate_extract_args : List FnArg → Except String (List (Pat × RType))
  | [] => Except.ok []
  | FnArg.receiver :: _ => Except.error "self params are unsupported"
  | FnArg.typed attrsLen pat ty :: rest =>
    if attrsLen > 0 then Except.error "attributes around fn args are unsupported"
    else if validate_arg_type ty then
      match validate_extract_args rest with
      | Except.ok args => Except.ok ((pat, ty) :: args)
      | Except.error e => Except.error e
    else Except.error "unsupported argument type"

/-! ## Attribute Resolver (`remote_fn_impl`, attribute loop, lines 114-159) -/

/-- The literal forms an attribute value can take: a string literal, an
integer literal (attribute values parse as `ExprLit`, so the integer is
non-negative), or any other literal kind (bool, float, char, ...). -/
inductive RLit where
  | str (s : String)
  | int (n : Nat)
  | other
deriving DecidableEq

/-- Rust `str::to_lowercase`, applied to the `net` attribute value
(faithful for ASCII strings, which is all the comparison below can
match). -/
def strToLower (s : String) : String :=
  ⟨s.data.map Char.toLower⟩

/-- Rust `<u16 as FromStr>::from_str`, used by
`s.value().parse::<u16>()`: an optional leading plus sign followed by one
or more ASCII digits, whose value must fit in 16 bits. -/
def parseU16 (s : String) : Option Nat :=
  let digits := match s.data with
    | '+' :: rest => rest
    | cs => cs
  if digits = [] then none
  else if digits.all Char.isDigit then
    let v := digits.foldl (fun acc c => acc * 10 + (c.toNat - 48)) 0
    if v ≤ 65535 then some v else none
  else none

/-- The resolved configuration record (`GwasmParams`, logic.rs 105-111).
`rpc_port` is a `u16` in the source; we carry it as a `Nat` that the
resolver only ever sets to values at most 65535. -/
structure GwasmParams where
  datadir : Option String := none
  rpc_address : Option String := none
  rpc_port : Option Nat := none
  net : Option String := none
deriving DecidableEq

/-- One iteration of the attribute loop in `remote_fn_impl` (logic.rs
117-159): dispatch on the attribute name, validate the literal, and
unconditionally overwrite (`Option::replace`) the matching field. A Rust
panic is an `Except.error`. -/
def parseAttrStep (p : GwasmParams) (a : String × RLit) : Except String GwasmParams :=
  match a.1, a.2 with
  | "datadir", RLit.str s => Except.ok { p with datadir := some s }
  | "datadir", _ => Except.error "invalid attribute value"
  | "rpc_address", RLit.str s => Except.ok { p with rpc_address := some s }
  | "rpc_address", _ => Except.error "invalid attribute value"
  | "rpc_port", RLit.str s =>
    match parseU16 s with
    | some v => Except.ok { p with rpc_port := some v }
    | none => Except.error "correct value"
  | "rpc_port", RLit.int n =>
    if n ≤ 65535 then Except.ok { p with rpc_port := some n }
    else Except.error "correct value"
  | "rpc_port", _ => Except.error "invalid attribute value"
  | "net", RLit.str s =>
    match strToLower s with
    | "testnet" => Except.ok { p with net := some "testnet" }
    | "mainnet" => Except.ok { p with net := some "mainnet" }
    | _ => Except.error "invalid attribute value"
  | "net", _ => Except.error "invalid attribute value"
  | _, _ => Except.error "unexpected attribute"

/-- The whole attribute loop: fold `parseAttrStep` over the attribute
list, starting from `GwasmParams::default()`. -/
def parseAttrs (attrs : List (String × RLit)) : Except String GwasmParams :=
  attrs.foldlM parseAttrStep {}

/-- `true` exactly on `Except.ok`. -/
def exceptIsOk : Except String GwasmParams → Bool
  | Except.ok _ => true
  | Except.error _ => false

/-- A field value of `GwasmParams`, wrapping either a string-valued or a
numeric field. -/
inductive FieldVal where
  | str (s : String)
  | nat (n : Nat)
deriving DecidableEq

/-- Read the field of `GwasmParams` addressed by a recognized attribute
key. -/
def GwasmParams.field (p : GwasmParams) : String → Option FieldVal
  | "datadir" => p.datadir.map FieldVal.str
  | "rpc_address" => p.rpc_address.map FieldVal.str
  | "rpc_port" => p.rpc_port.map FieldVal.nat
  | "net" => p.net.map FieldVal.str
  | _ => none

/-- The field value a single attribute `(k, v)` stores when it is
processed successfully (computed by running one step from the default
record). -/
def fieldValue (k : String) (v : RLit) : Option FieldVal :=
  match parseAttrStep {} (k, v) with
  | Except.ok p => p.field k
  | Except.error _ => none

/-- Invariant of the resolver: the `net` field only ever holds the
lowercase selector strings. -/
def netOK (p : GwasmParams) : Prop :=
  p.net = none ∨ p.net = some "testnet" ∨ p.net = some "mainnet"

/-! ## Generated dispatchers (`remote_fn_impl`, lines 161-284) -/

/-- `let input_data = args_pats[0].clone();` (logic.rs line 191): the
generator selects the first parameter pattern as the only data marshaled
on the local path; indexing an empty vector panics. -/
def genInputData (pats : List Pat) : Except String Pat :=
  match pats with
  | [] => Except.error "index out of bounds: the len is 0 but the index is 0"
  | p :: _ => Except.ok p

/-- The input-directory contents prepared by the generated local-sandbox
body: `fs::write(input_dir.join("in"), data)` with
`data = Vec::from(#input_data)` — exactly one file named `in`, holding
the bytes of the selected pattern under the runtime environment `env`. -/
def localInputDir (inputData : Pat) (env : Pat → Bytes) : List (String × Bytes) :=
  [("in", env inputData)]

/-- The generated distributed body builds the task with one
`.push_subtask_data(Vec::from(#pat))` call per parameter, in declared
order (logic.rs 171-176 and 255-258); at runtime the task builder
appends each subtask bytes to the task being built. -/
def buildTask (argVals : List Bytes) : List Bytes :=
  argVals.foldl (fun acc v => acc ++ [v]) []

/-- Result reassembly in the generated distributed body (logic.rs
275-281): iterate the computed task subtasks in order, each subtask
holding named data streams in order, `read_to_end`-appending every
stream into one output buffer. -/
def collectOutput (subtasks : List (List (String × Bytes))) : Bytes :=
  subtasks.foldl (fun out st => st.foldl (fun acc p => acc ++ p.2) out) []

/-- The network selector enum of the generated code. -/
inductive Net where
  | TestNet
  | MainNet
deriving DecidableEq

/-- `params.net.unwrap_or("testnet")` (logic.rs line 187). -/
def resolveNet (p : GwasmParams) : String :=
  p.net.getD "testnet"

/-- The generated `match #net` expression (logic.rs 264-268); the
fallback arm panics via `unreachable!()`, modelled as `none`. -/
def netMatch (s : String) : Option Net :=
  match s with
  | "testnet" => some Net.TestNet
  | "mainnet" => some Net.MainNet
  | _ => none

/-! ## Emitted kernel program (`remote_fn_impl`, lines 286-317) -/

/-- `Vec::pop`: remove and return the last element. -/
def vecPop {α : Type} (l : List α) : Option (α × List α) :=
  match l.getLast? with
  | none => none
  | some x => some (x, l.dropLast)

/-- The kernel input-reconstruction loop: the generator emits, for each
parameter index `i` in `0..n`, `let next_arg = args.pop().unwrap();`
followed by opening that path and reading it fully into buffer `in{i}`.
Returns the argument list left after the pops together with the buffers
`[in0, ..., in(n-1)]` in parameter order; `none` models an `unwrap`
panic. -/
def readInputs {α : Type} (readFile : α → Option Bytes) :
    Nat → List α → Option (List α × List Bytes)
  | 0, args => some (args, [])
  | n + 1, args =>
    match vecPop args with
    | none => none
    | some (a, rest) =>
      match readFile a with
      | none => none
      | some buf =>
        match readInputs readFile n rest with
        | none => none
        | some (rem, bufs) => some (rem, buf :: bufs)

/-- The emitted kernel `main` for an `n`-parameter function: pop the
output path from the end of the argument vector, pop and read one input
file per parameter, call the original function body with the buffers in
parameter order (`#fn_ident(&in0, &in1, ...)`), and write the result to
the output path. Returns (remaining argument list, output path, bytes
written). -/
def kernelMain {α : Type} (n : Nat) (body : List Bytes → Bytes)
    (readFile : α → Option Bytes) (argv : List α) :
    Option (List α × α × Bytes) :=
  match vecPop argv with
  | none => none
  | some (outPath, rest) =>
    match readInputs readFile n rest with
    | none => none
    | some (rem, bufs) => some (rem, outPath, body bufs)

/-! ## Helper lemmas -/

/-- Decomposing a successful attribute fold across an append. -/
theorem foldl_attrs_append (l1 l2 : List (String × RLit)) (init p : GwasmParams)
    (h : List.foldlM parseAttrStep init (l1 ++ l2) = Except.ok p) :
    ∃ q, List.foldlM parseAttrStep init l1 = Except.ok q ∧
      List.foldlM parseAttrStep q l2 = Except.ok p := by
  induction l1 generalizing init with
  | nil =>
    exact ⟨init, rfl, h⟩
  | cons x xs ih =>
    rw [List.cons_append, List.foldlM_cons] at h
    cases hx : parseAttrStep init x with
    | ok q =>
      rw [hx] at h
      obtain ⟨r, hr1, hr2⟩ := ih q h
      exact ⟨r, by rw [List.foldlM_cons, hx]; exact hr1, hr2⟩
    | error e => rw [hx] at h; exact Except.noConfusion h

/-- A successful step on an attribute whose key differs from `k` leaves
the field addressed by `k` unchanged. -/
theorem parseAttrStep_field_other (q r : GwasmParams) (k : String) (a : String × RLit)
    (hne : a.1 ≠ k) (h : parseAttrStep q a = Except.ok r) :
    r.field k = q.field k := by
  obtain ⟨kk, v⟩ := a
  simp only at hne
  unfold parseAttrStep at h
  split at h
  any_goals exact Except.noConfusion h
  case h_1 s hk hv =>
    simp only at hk hv; subst hk; subst hv
    injection h with h; subst h
    unfold GwasmParams.field
    split <;> first | exact absurd rfl hne | rfl
  case h_3 s hk hv =>
    simp only at hk hv; subst hk; subst hv
    injection h with h; subst h
    unfold GwasmParams.field
    split <;> first | exact absurd rfl hne | rfl
  case h_5 s hk hv =>
    simp only at hk hv; subst hk; subst hv
    split at h
    case h_1 w hp =>
      injection h with h; subst h
      unfold GwasmParams.field
      split <;> first | exact absurd rfl hne | rfl
    case h_2 hp => exact Except.noConfusion h
  case h_6 n hk hv =>
    simp only at hk hv; subst hk; subst hv
    split at h
    · injection h with h; subst h
      unfold GwasmParams.field
      split <;> first | exact absurd rfl hne | rfl
    · exact Except.noConfusion h
  case h_8 s hk hv =>
    simp only at hk hv; subst hk; subst hv
    split at h
    case h_1 hs =>
      injection h with h; subst h
      unfold GwasmParams.field
      split <;> first | exact absurd rfl hne | rfl
    case h_2 hs =>
      injection h with h; subst h
      unfold GwasmParams.field
      split <;> first | exact absurd rfl hne | rfl
    case h_3 hs => exact Except.noConfusion h

/-- A successful fold over attributes none of which uses key `k` leaves
the field addressed by `k` unchanged. -/
theorem foldl_attrs_field_other (l : List (String × RLit)) (k : String)
    (hk : ∀ a ∈ l, a.1 ≠ k) (q p : GwasmParams)
    (h : List.foldlM parseAttrStep q l = Except.ok p) :
    p.field k = q.field k := by
  induction l generalizing q with
  | nil =>
    rw [List.foldlM_nil] at h
    injection h with h; subst h; rfl
  | cons x xs ih =>
    rw [List.foldlM_cons] at h
    cases hx : parseAttrStep q x with
    | ok r =>
      rw [hx] at h
      have h1 := ih (fun a ha => hk a (List.mem_cons_of_mem x ha)) r h
      rw [h1]
      exact parseAttrStep_field_other q r k x (hk x (List.mem_cons_self x xs)) hx
    | error e => rw [hx] at h; exact Except.noConfusion h

/-- A successful step on attribute `(k, v)` stores exactly the value
determined by `v` in the field addressed by `k`, regardless of the prior
record. -/
theorem parseAttrStep_field (q p : GwasmParams) (k : String) (v : RLit)
    (h : parseAttrStep q (k, v) = Except.ok p) :
    p.field k = fieldValue k v := by
  unfold parseAttrStep at h
  split at h
  any_goals exact Except.noConfusion h
  case h_1 s hk hv =>
    simp only at hk hv
    subst hk; subst hv
    injection h with h; subst h
    rfl
  case h_3 s hk hv =>
    simp only at hk hv
    subst hk; subst hv
    injection h with h; subst h
    rfl
  case h_5 s hk hv =>
    simp only at hk hv
    subst hk; subst hv
    split at h
    case h_1 w hp =>
      injection h with h; subst h
      simp [fieldValue, parseAttrStep, GwasmParams.field, hp]
    case h_2 hp => exact Except.noConfusion h
  case h_6 n hk hv =>
    simp only at hk hv
    subst hk; subst hv
    split at h
    · injection h with h; subst h
      rename_i hn
      simp [fieldValue, parseAttrStep, GwasmParams.field, hn]
    · exact Except.noConfusion h
  case h_8 s hk hv =>
    simp only at hk hv
    subst hk; subst hv
    split at h
    case h_1 hs =>
      injection h with h; subst h
      simp [fieldValue, parseAttrStep, GwasmParams.field, hs]
    case h_2 hs =>
      injection h with h; subst h
      simp [fieldValue, parseAttrStep, GwasmParams.field, hs]
    case h_3 hs => exact Except.noConfusion h

/-- An attribute that fails on every prior record fails the whole fold. -/
theorem foldl_attrs_bad (a : String × RLit)
    (hbad : ∀ q : GwasmParams, ∃ e, parseAttrStep q a = Except.error e)
    (xs ys : List (String × RLit)) (init : GwasmParams) :
    exceptIsOk (List.foldlM parseAttrStep init (xs ++ a :: ys)) = false := by
  induction xs generalizing init with
  | nil =>
    rw [List.nil_append, List.foldlM_cons]
    obtain ⟨e, he⟩ := hbad init
    rw [he]
    rfl
  | cons x xs ih =>
    rw [List.cons_append, List.foldlM_cons]
    cases hx : parseAttrStep init x with
    | ok q => exact ih q
    | error e => rfl

/-- An attribute that fails on every prior record fails the whole
transformation, wherever it occurs in the attribute list. -/
theorem parseAttrs_bad (a : String × RLit)
    (hbad : ∀ q : GwasmParams, ∃ e, parseAttrStep q a = Except.error e)
    (xs ys : List (String × RLit)) :
    exceptIsOk (parseAttrs (xs ++ a :: ys)) = false :=
  foldl_attrs_bad a hbad xs ys {}

/-- A successful step preserves the `netOK` invariant. -/
theorem parseAttrStep_netOK (q r : GwasmParams) (a : String × RLit)
    (hq : netOK q) (h : parseAttrStep q a = Except.ok r) : netOK r := by
  obtain ⟨k, v⟩ := a
  unfold parseAttrStep at h
  split at h
  any_goals exact Except.noConfusion h
  case h_1 s hk hv => injection h with h; subst h; exact hq
  case h_3 s hk hv => injection h with h; subst h; exact hq
  case h_5 s hk hv =>
    split at h
    case h_1 w hp => injection h with h; subst h; exact hq
    case h_2 hp => exact Except.noConfusion h
  case h_6 n hk hv =>
    split at h
    · injection h with h; subst h; exact hq
    · exact Except.noConfusion h
  case h_8 s hk hv =>
    split at h
    case h_1 hs => injection h with h; subst h; exact Or.inr (Or.inl rfl)
    case h_2 hs => injection h with h; subst h; exact Or.inr (Or.inr rfl)
    case h_3 hs => exact Except.noConfusion h

/-- A successful fold from a `netOK` record yields a `netOK` record. -/
theorem foldl_attrs_netOK (l : List (String × RLit)) (init p : GwasmParams)
    (hinit : netOK init) (h : List.foldlM parseAttrStep init l = Except.ok p) :
    netOK p := by
  induction l generalizing init with
  | nil =>
    rw [List.foldlM_nil] at h
    injection h with h; subst h; exact hinit
  | cons x xs ih =>
    rw [List.foldlM_cons] at h
    cases hx : parseAttrStep init x with
    | ok q => rw [hx] at h; exact ih q (parseAttrStep_netOK init q x hinit hx) h
    | error e => rw [hx] at h; exact Except.noConfusion h

/-- Folding push-back over a list appends it to the accumulator. -/
theorem foldl_push_eq_append (l : List Bytes) (acc : List Bytes) :
    l.foldl (fun acc v => acc ++ [v]) acc = acc ++ l := by
  induction l generalizing acc with
  | nil => simp
  | cons x xs ih => simp [List.foldl_cons, ih]

/-- Reading all streams of one subtask appends their concatenation. -/
theorem foldl_read_streams (st : List (String × Bytes)) (acc : Bytes) :
    st.foldl (fun acc p => acc ++ p.2) acc = acc ++ (st.map Prod.snd).flatten := by
  induction st generalizing acc with
  | nil => simp
  | cons x xs ih => simp [List.foldl_cons, ih]

/-- Reading all subtasks appends the concatenation of all their
streams, in subtask order then stream order. -/
theorem foldl_collect (sts : List (List (String × Bytes))) (acc : Bytes) :
    sts.foldl (fun out st => st.foldl (fun acc p => acc ++ p.2) out) acc =
      acc ++ (sts.map (fun st => (st.map Prod.snd).flatten)).flatten := by
  induction sts generalizing acc with
  | nil => simp
  | cons x xs ih =>
    rw [List.foldl_cons, foldl_read_streams, ih]
    simp

/-- Popping from a list with a known last element. -/
theorem vecPop_concat {α : Type} (l : List α) (a : α) :
    vecPop (l ++ [a]) = some (a, l) := by
  rw [vecPop, List.getLast?_concat, List.dropLast_concat]

/-- The reconstruction loop pops exactly the trailing `ins` paths,
leaving `pre` untouched, and yields the buffers of `ins` reversed (the
buffer order handed to the function body). -/
theorem readInputs_spec {α : Type} (readFile : α → Option Bytes) (f : α → Bytes)
    (pre ins : List α)
    (hread : ∀ a ∈ ins, readFile a = some (f a)) :
    readInputs readFile ins.length (pre ++ ins) = some (pre, (ins.map f).reverse) := by
  induction ins using List.reverseRecOn with
  | nil => simp [readInputs]
  | append_singleton l a ih =>
    rw [← List.append_assoc]
    have hlen : (l ++ [a]).length = l.length + 1 := by simp
    rw [hlen]
    have hr : readFile a = some (f a) := hread a (by simp)
    have hi := ih (fun x hx => hread x (by simp [hx]))
    simp only [readInputs, vecPop_concat, hr, hi]
    simp

/-! ## Claim theorems -/

/-- Claim C1: for a function of N parameters, the emitted kernel entry
point pops exactly N+1 trailing command-line arguments — the output path
first (the final argument), then one input path per parameter — leaving
any preceding arguments (`pre`) untouched. Popping from the end means
the reconstruction consumes the input paths in reverse of their
command-line order: declared parameter 1 receives the bytes of the last
listed input path (the one popped right after the output path) and
declared parameter N those of the first listed input path, which is the
stated reversed-pop order (`(ins.map f).reverse`). The original body is
then invoked once with the buffers in original parameter order, and its
result is written to the popped output path. -/
theorem kernel_reversed_pop_reconstruction {α : Type} (body : List Bytes → Bytes)
    (readFile : α → Option Bytes) (f : α → Bytes)
    (pre ins : List α) (outPath : α)
    (hread : ∀ a ∈ ins, readFile a = some (f a)) :
    kernelMain ins.length body readFile (pre ++ ins ++ [outPath]) =
      some (pre, outPath, body ((ins.map f).reverse)) := by
  simp only [kernelMain, vecPop_concat, readInputs_spec readFile f pre ins hread]

/-- Witness for C1: a 3-parameter kernel invocation with distinct
buffers; 4 trailing arguments are popped, the program-name prefix `[99]`
survives, and the body receives the file contents in reversed
command-line order. -/
theorem kernel_reversed_pop_reconstruction_witness :
    kernelMain 3 (fun bufs => bufs.flatten) (fun a : Nat => some [a])
      [99, 10, 20, 30, 7] = some ([99], 7, [30, 20, 10]) := by
  have h := kernel_reversed_pop_reconstruction (fun bufs => bufs.flatten)
    (fun a : Nat => some [a]) (fun a => [a]) [99] [10, 20, 30] 7
    (fun a _ => rfl)
  simpa using h

/-- Claim C2: on the local-sandbox path the generator marshals only the
first declared parameter: the pattern selected by `args_pats[0]` is the
head of the parameter list, the sandbox input directory receives exactly
one file (named `in`) holding that parameter's bytes, and the bytes of
any later parameter (when distinct from the first parameter's bytes)
appear nowhere in the input directory. -/
theorem local_marshal_first_param_only (p1 : Pat) (ps : List Pat)
    (env : Pat → Bytes) (d : Pat)
    (hgen : genInputData (p1 :: ps) = Except.ok d) :
    localInputDir d env = [("in", env p1)] ∧
    ∀ q ∈ ps, env q ≠ env p1 → ∀ fb ∈ localInputDir d env, fb.2 ≠ env q := by
  have hd : d = p1 := by
    have hh : Except.ok (ε := String) p1 = Except.ok d := hgen
    injection hh with hh
    exact hh.symm
  subst d
  refine ⟨rfl, ?_⟩
  intro q hq hne fb hfb
  have hfb1 : fb = ("in", env p1) := by simpa [localInputDir] using hfb
  subst hfb1
  simpa using fun h => hne h.symm

/-- Witness for C2: a two-parameter function whose second argument bytes
(`[2]`) are absent from the input directory, which holds exactly the
single file `in` with the first argument bytes (`[1]`). -/
theorem local_marshal_first_param_only_witness :
    localInputDir "a" (fun q => if q = "a" then [1] else [2]) = [("in", [1])] := by
  have h := (local_marshal_first_param_only "a" ["b"]
    (fun q => if q = "a" then [1] else [2]) "a" rfl).1
  simpa using h

/-- Claim C3: the distributed dispatcher builds the task by folding one
`push_subtask_data` per argument over the empty task, and the resulting
subtask list is exactly the argument byte-buffer list: one subtask per
parameter, in declared order, each holding the unmodified bytes. -/
theorem task_one_subtask_per_param (argVals : List Bytes) :
    buildTask argVals = argVals := by
  rw [buildTask, foldl_push_eq_append, List.nil_append]

/-- Claim C4: the distributed dispatcher's return value is the
concatenation, in subtask order and then data-stream order within each
subtask, of all stream bytes; in particular the two-subtask example with
streams [1,2,3] then [4,5], [6] yields [1,2,3,4,5,6]. -/
theorem collectOutput_concat_in_order (subtasks : List (List (String × Bytes))) :
    collectOutput subtasks =
      (subtasks.map (fun st => (st.map Prod.snd).flatten)).flatten ∧
    collectOutput [[("out", [1, 2, 3])], [("a", [4, 5]), ("b", [6])]] =
      [1, 2, 3, 4, 5, 6] := by
  constructor
  · rw [collectOutput, foldl_collect, List.nil_append]
  · rfl

/-- Claim C5: `validate_arg_type` accepts a type if and only if it is
built by wrapping the single-byte unsigned integer type `u8` (a
single-segment path, the only shape `get_ident` accepts) in any finite
combination of array, slice and reference wrappers; every other type —
`u32`, `f32`, a struct name, a multi-segment path, or any other type
variant — is rejected. -/
theorem validate_arg_type_iff (t : RType) :
    validate_arg_type t = true ↔ ByteSeqShaped t := by
  induction t with
  | array e ih =>
    rw [validate_arg_type, ih]
    exact ⟨ByteSeqShaped.array, fun h => by cases h with | array h => exact h⟩
  | slice e ih =>
    rw [validate_arg_type, ih]
    exact ⟨ByteSeqShaped.slice, fun h => by cases h with | slice h => exact h⟩
  | ref e ih =>
    rw [validate_arg_type, ih]
    exact ⟨ByteSeqShaped.ref, fun h => by cases h with | ref h => exact h⟩
  | path segs =>
    constructor
    · intro h
      rcases segs with _ | ⟨one, _ | ⟨two, rest⟩⟩
      · exact absurd h (by simp [validate_arg_type])
      · have h1 : one = "u8" := by simpa [validate_arg_type] using h
        subst h1
        exact ByteSeqShaped.u8
      · exact absurd h (by simp [validate_arg_type])
    · intro h
      cases h
      rfl
  | other =>
    constructor
    · intro h; exact absurd h (by simp [validate_arg_type])
    · intro h; cases h

/-- Claim C6: when the attribute list resolves successfully and the
recognized key `k` has its last occurrence at `(k, v)` (no later
attribute uses `k`, earlier ones freely may, with any values), the
resolved record holds for `k` exactly the value determined by `v`: each
assignment unconditionally overwrites the previous one, so the last
occurrence wins. -/
theorem attr_last_write_wins (l1 l2 : List (String × RLit)) (k : String) (v : RLit)
    (p : GwasmParams) (hlast : ∀ a ∈ l2, a.1 ≠ k)
    (h : parseAttrs (l1 ++ (k, v) :: l2) = Except.ok p) :
    p.field k = fieldValue k v := by
  unfold parseAttrs at h
  obtain ⟨q, hq, hrest⟩ := foldl_attrs_append l1 ((k, v) :: l2) {} p h
  rw [List.foldlM_cons] at hrest
  cases hx : parseAttrStep q (k, v) with
  | ok r =>
    rw [hx] at hrest
    rw [foldl_attrs_field_other l2 k hlast r p hrest]
    exact parseAttrStep_field q r k v hx
  | error e => rw [hx] at hrest; exact Except.noConfusion hrest

/-- Witness for C6: `net="testnet", net="mainnet"` resolves, and the
resolved `net` field carries the value of the last occurrence,
mainnet. -/
theorem attr_last_write_wins_witness :
    parseAttrs [("net", RLit.str "testnet"), ("net", RLit.str "mainnet")] =
      Except.ok { net := some "mainnet" } ∧
    GwasmParams.field { net := some "mainnet" } "net" =
      fieldValue "net" (RLit.str "mainnet") := by
  constructor
  · rfl
  · exact attr_last_write_wins [("net", RLit.str "testnet")] [] "net"
      (RLit.str "mainnet") _ (by simp) (by rfl)

/-- Claim C7: the `net` attribute accepts exactly the strings whose
lowercasing is `testnet` or `mainnet`, storing the lowercased selector
(so `net="Mainnet"` stores mainnet); any other string value, and any
non-string literal, makes the whole transformation fail wherever the
attribute occurs in the list. -/
theorem net_attr_spec (p : GwasmParams) (s : String) (v : RLit)
    (xs ys : List (String × RLit)) :
    ((strToLower s = "testnet" ∨ strToLower s = "mainnet") →
      parseAttrStep p ("net", RLit.str s) =
        Except.ok { p with net := some (strToLower s) }) ∧
    (strToLower s ≠ "testnet" → strToLower s ≠ "mainnet" →
      exceptIsOk (parseAttrs (xs ++ ("net", RLit.str s) :: ys)) = false) ∧
    ((∀ t, v ≠ RLit.str t) →
      exceptIsOk (parseAttrs (xs ++ ("net", v) :: ys)) = false) := by
  have hred : ∀ q : GwasmParams, parseAttrStep q ("net", RLit.str s) =
      (match strToLower s with
       | "testnet" => Except.ok { q with net := some "testnet" }
       | "mainnet" => Except.ok { q with net := some "mainnet" }
       | _ => Except.error "invalid attribute value") := fun _ => rfl
  refine ⟨?_, ?_, ?_⟩
  · rintro (h | h) <;> (rw [hred, h]; rfl)
  · intro h1 h2
    apply parseAttrs_bad
    intro q
    refine ⟨"invalid attribute value", ?_⟩
    rw [hred]
    split
    · rename_i hs; exact absurd hs h1
    · rename_i hs; exact absurd hs h2
    · rfl
  · intro hv
    apply parseAttrs_bad
    intro q
    cases v with
    | str t => exact absurd rfl (hv t)
    | int n => exact ⟨"invalid attribute value", rfl⟩
    | other => exact ⟨"invalid attribute value", rfl⟩

/-- Witness for C7: `net="Mainnet"` resolves to mainnet
(case-insensitive), `net="stagenet"` fails, and a non-string `net`
literal fails. -/
theorem net_attr_spec_witness :
    parseAttrStep {} ("net", RLit.str "Mainnet") =
      Except.ok { net := some "mainnet" } ∧
    exceptIsOk (parseAttrs [("net", RLit.str "stagenet")]) = false ∧
    exceptIsOk (parseAttrs [("net", RLit.int 5)]) = false := by
  refine ⟨?_, ?_, ?_⟩
  · exact (net_attr_spec {} "Mainnet" RLit.other [] []).1 (Or.inr rfl)
  · exact (net_attr_spec {} "stagenet" RLit.other [] []).2.1
      (by decide) (by decide)
  · exact (net_attr_spec {} "stagenet" (RLit.int 5) [] []).2.2
      (fun t h => RLit.noConfusion h)

/-- Claim C8: `rpc_port` accepts a string-encoded integer literal or an
integer literal, both normalizing to the same unsigned 16-bit value; a
string that does not parse as a `u16`, or an integer out of the 16-bit
range, makes the whole transformation fail wherever the attribute
occurs. -/
theorem rpc_port_attr_spec (p : GwasmParams) (s : String) (n m : Nat)
    (xs ys : List (String × RLit)) :
    (parseU16 s = some n →
      parseAttrStep p ("rpc_port", RLit.str s) =
        Except.ok { p with rpc_port := some n }) ∧
    (m ≤ 65535 →
      parseAttrStep p ("rpc_port", RLit.int m) =
        Except.ok { p with rpc_port := some m }) ∧
    (parseU16 s = none →
      exceptIsOk (parseAttrs (xs ++ ("rpc_port", RLit.str s) :: ys)) = false) ∧
    (65535 < m →
      exceptIsOk (parseAttrs (xs ++ ("rpc_port", RLit.int m) :: ys)) = false) := by
  have hred : ∀ q : GwasmParams, parseAttrStep q ("rpc_port", RLit.str s) =
      (match parseU16 s with
       | some w => Except.ok { q with rpc_port := some w }
       | none => Except.error "correct value") := fun _ => rfl
  have hredi : ∀ q : GwasmParams, parseAttrStep q ("rpc_port", RLit.int m) =
      (if m ≤ 65535 then Except.ok { q with rpc_port := some m }
       else Except.error "correct value") := fun _ => rfl
  refine ⟨?_, ?_, ?_, ?_⟩
  · intro h; rw [hred, h]
  · intro h; rw [hredi, if_pos h]
  · intro h
    apply parseAttrs_bad
    intro q
    refine ⟨"correct value", ?_⟩
    rw [hred, h]
  · intro h
    apply parseAttrs_bad
    intro q
    refine ⟨"correct value", ?_⟩
    rw [hredi, if_neg (by omega)]

/-- Witness for C8: `rpc_port="8080"` and `rpc_port=8080` both resolve
to 8080; a non-numeric string and the out-of-range integer 70000 both
fail. -/
theorem rpc_port_attr_spec_witness :
    parseAttrStep {} ("rpc_port", RLit.str "8080") =
      Except.ok { rpc_port := some 8080 } ∧
    parseAttrStep {} ("rpc_port", RLit.int 8080) =
      Except.ok { rpc_port := some 8080 } ∧
    exceptIsOk (parseAttrs [("rpc_port", RLit.str "no")]) = false ∧
    exceptIsOk (parseAttrs [("rpc_port", RLit.int 70000)]) = false := by
  refine ⟨?_, ?_, ?_, ?_⟩
  · exact (rpc_port_attr_spec {} "8080" 8080 0 [] []).1 (by decide)
  · exact (rpc_port_attr_spec {} "8080" 8080 8080 [] []).2.1 (by decide)
  · exact (rpc_port_attr_spec {} "no" 0 0 [] []).2.2.1 (by decide)
  · exact (rpc_port_attr_spec {} "no" 0 70000 [] []).2.2.2 (by decide)

/-- Claim C9 counterexample: the Argument Validator does not refuse a
zero-parameter function — `validate_extract_args` on the empty parameter
list succeeds, returning the empty argument vector. -/
theorem validate_extract_args_nil_ok : validate_extract_args [] = Except.ok [] := rfl

/-- Claim C9 (amended): a zero-parameter function passes validation
(`validate_extract_args` accepts the empty list) and is instead rejected
during dispatcher generation, when `args_pats[0]` is indexed for the
local path's input data and panics on the empty pattern vector. -/
theorem zero_params_fail_at_generation :
    validate_extract_args [] = Except.ok [] ∧
    genInputData [] =
      Except.error "index out of bounds: the len is 0 but the index is 0" :=
  ⟨rfl, rfl⟩

/-- Claim C10: for every attribute list the transformation accepts, the
resolved network selector (`params.net.unwrap_or("testnet")`) is exactly
`testnet` or `mainnet`, so the `unreachable!()` fallback arm of the
generated match never fires. -/
theorem generated_net_match_total (attrs : List (String × RLit)) (p : GwasmParams)
    (h : parseAttrs attrs = Except.ok p) :
    (netMatch (resolveNet p)).isSome = true := by
  have hok : netOK p := foldl_attrs_netOK attrs {} p (Or.inl rfl) h
  rcases hok with h0 | h0 | h0 <;> simp [resolveNet, netMatch, h0]

/-- Witness for C10: the accepted list `net="Mainnet"` resolves to a
record whose selector the generated match handles. -/
theorem generated_net_match_total_witness :
    (netMatch (resolveNet { net := some "mainnet" })).isSome = true :=
  generated_net_match_total [("net", RLit.str "Mainnet")] _ (by rfl)

end Gfaas
